import Mathlib

/-!
Shallow embedding of the deduplication lock store of the solanasigbot
repository (src/bot1.js, duplicated in src/unnamed/part_001), together
with the candidate-processing pipeline of `processTokensFromPage` and the
`checkTokenSafety` helper of src/bot.js.

The Redis database is modelled as an explicit `Store` value; Redis commands
(`SET key val NX EX ttl`, `DEL`, `SADD`, `SISMEMBER`, `SCARD`, `HSET`,
`EXPIRE`) become pure functions on `Store`, with wall-clock time passed as a
`Nat` number of seconds.  A key with a TTL is live at time `now` exactly when
`now < expiresAt`; an expired key is observationally absent.

The JavaScript functions wrap every Redis interaction in
`try { if (!redisClient.isReady) ... } catch (error) ...`; we model the
backend condition with the `Backend` type: `ready` (all commands succeed),
`notReady` (the `isReady` guard fires), `erroring` (the first Redis command
throws, the `catch` block returns the fallback value and the store is
unchanged).  Nondeterministic inputs of the source (`Date.now()`,
`Math.random()`, the metadata object — already stringified, with
null/undefined entries dropped, as the source's stringification loop does)
are passed as explicit arguments.
-/

/-- One entry of the `raydium_bot1:signal_locks:{tokenAddress}` key class:
the token address the lock key is derived from, the stored `lockValue`
string, and the absolute expiry time (seconds). -/
structure LockEntry where
  token : String
  value : String
  expiresAt : Nat
deriving DecidableEq, Repr

/-- One entry of the `raydium_bot1:token_metadata:{tokenAddress}` key class:
a Redis hash of string fields with an optional TTL (`none` = no expiry
set). -/
structure MetaEntry where
  token : String
  fields : List (String × String)
  expiresAt : Option Nat
deriving DecidableEq, Repr

/-- The state of Redis database 1 as used by bot1: the
`raydium_bot1:processed_tokens` set (kept duplicate-free, as a Redis set
is), the per-token signal locks and the per-token metadata hashes. -/
structure Store where
  processedTokens : List String
  signalLocks : List LockEntry
  tokenMetadata : List MetaEntry
deriving DecidableEq, Repr

def Store.empty : Store := ⟨[], [], []⟩

/-- Condition of the Redis backend as seen through `redisClient`. -/
inductive Backend
  | ready
  | notReady
  | erroring
deriving DecidableEq, Repr

/-- A lock entry is live at time `now` iff its TTL has not elapsed. -/
def lockIsLive (now : Nat) (e : LockEntry) : Bool := now < e.expiresAt

/-- The live lock for `addr`, if any (an expired key is absent). -/
def getLiveLock (s : Store) (now : Nat) (addr : String) : Option LockEntry :=
  s.signalLocks.find? (fun e => e.token == addr && lockIsLive now e)

/-- `redisClient.set(lockKey, lockValue, {NX: true, EX: ttl})`: succeeds and
stores the value with expiry `now + ttl` iff no live key exists. -/
def setNxEx (s : Store) (now : Nat) (addr value : String) (ttl : Nat) :
    Bool × Store :=
  match getLiveLock s now addr with
  | some _ => (false, s)
  | none =>
      (true, { s with signalLocks :=
        ⟨addr, value, now + ttl⟩ ::
          s.signalLocks.filter (fun e => e.token != addr) })

/-- `redisClient.del(lockKey)`. -/
def delLock (s : Store) (addr : String) : Store :=
  { s with signalLocks := s.signalLocks.filter (fun e => e.token != addr) }

/-- `redisClient.sIsMember(PROCESSED_TOKENS, addr)`. -/
def sIsMember (s : Store) (addr : String) : Bool :=
  s.processedTokens.contains addr

/-- `redisClient.sAdd(PROCESSED_TOKENS, addr)`: a Redis set add is a no-op
on an already-present member. -/
def sAdd (s : Store) (addr : String) : Store :=
  if s.processedTokens.contains addr then s
  else { s with processedTokens := s.processedTokens ++ [addr] }

/-- `redisClient.sCard(PROCESSED_TOKENS)`. -/
def sCard (s : Store) : Nat := s.processedTokens.length

/-- A metadata hash is live at `now` iff it has no TTL or the TTL has not
elapsed. -/
def metaIsLive (now : Nat) (m : MetaEntry) : Bool :=
  match m.expiresAt with
  | none => true
  | some t => now < t

/-- The live metadata hash for `addr`, if any. -/
def getLiveMeta (s : Store) (now : Nat) (addr : String) : Option MetaEntry :=
  s.tokenMetadata.find? (fun m => m.token == addr && metaIsLive now m)

/-- Field merge of `HSET`: new fields override equally-named old ones. -/
def mergeFields (old new : List (String × String)) : List (String × String) :=
  old.filter (fun p => !(new.any (fun q => q.1 == p.1))) ++ new

/-- `redisClient.hSet(TOKEN_METADATA:addr, fields)`: merges into the live
hash if one exists (keeping its TTL, as `HSET` does), otherwise creates a
fresh hash with no TTL. -/
def hSetMeta (s : Store) (now : Nat) (addr : String)
    (fields : List (String × String)) : Store :=
  match getLiveMeta s now addr with
  | some m =>
      { s with tokenMetadata :=
        ⟨addr, mergeFields m.fields fields, m.expiresAt⟩ ::
          s.tokenMetadata.filter (fun m' => m'.token != addr) }
  | none =>
      { s with tokenMetadata :=
        ⟨addr, fields, none⟩ ::
          s.tokenMetadata.filter (fun m' => m'.token != addr) }

/-- `redisClient.expire(TOKEN_METADATA:addr, ttl)`: sets the TTL of the live
hash; no-op when the key is absent or already expired. -/
def expireMeta (s : Store) (now : Nat) (addr : String) (ttl : Nat) : Store :=
  { s with tokenMetadata := s.tokenMetadata.map (fun m =>
      if m.token == addr && metaIsLive now m then
        { m with expiresAt := some (now + ttl) }
      else m) }

/-- `isTokenProcessed(tokenAddress)` of src/bot1.js lines 102-118: returns
the set-membership answer when Redis is ready, and `false` both when Redis
is not ready and when the lookup throws. -/
def isTokenProcessed (b : Backend) (s : Store) (addr : String) : Bool :=
  match b with
  | .notReady => false
  | .erroring => false
  | .ready => sIsMember s addr

/-- The distinct return paths of `checkAndMarkTokenAsProcessed`; the
function's JavaScript return value is the Boolean `toBool` below
(`true` = skip, `false` = proceed with the signal). -/
inductive ClaimOutcome
  | notReadyProceed
  | errorProceed
  | alreadyInProgress
  | alreadyProcessed
  | claimed
deriving DecidableEq, Repr

/-- The Boolean actually returned by the JavaScript function on each path. -/
def ClaimOutcome.toBool : ClaimOutcome → Bool
  | .notReadyProceed => false
  | .errorProceed => false
  | .alreadyInProgress => true
  | .alreadyProcessed => true
  | .claimed => false

/-- The stringified `tokenData` object built inside
`checkAndMarkTokenAsProcessed` (both ISO timestamps come from the same
instant `now`). -/
def claimFields (now : Nat) (addr lockValue : String)
    (metadata : List (String × String)) : List (String × String) :=
  [("tokenAddress", addr), ("processedAt", toString now),
   ("lockAcquiredAt", toString now), ("lockValue", lockValue)] ++ metadata

/-- The metadata TTL used by the source: 30 days in seconds. -/
def metadataTtl : Nat := 30 * 24 * 60 * 60

/-- The lock TTL used by the source: `EX: 600` (10 minutes). -/
def lockTtl : Nat := 600

/-- `checkAndMarkTokenAsProcessed(tokenAddress, metadata)` of src/bot1.js
lines 121-192: not ready → `false`; lock not acquired → `true`; already in
the processed set → delete lock, `true`; otherwise add to the processed
set, store metadata with a 30-day TTL, keep the lock, `false`; any Redis
error → `false`. -/
def checkAndMarkTokenAsProcessed (b : Backend) (now : Nat)
    (addr lockValue : String) (metadata : List (String × String))
    (s : Store) : ClaimOutcome × Store :=
  match b with
  | .notReady => (.notReadyProceed, s)
  | .erroring => (.errorProceed, s)
  | .ready =>
    match setNxEx s now addr lockValue lockTtl with
    | (false, s1) => (.alreadyInProgress, s1)
    | (true, s1) =>
      if sIsMember s1 addr then
        (.alreadyProcessed, delLock s1 addr)
      else
        let s2 := sAdd s1 addr
        let s3 := hSetMeta s2 now addr (claimFields now addr lockValue metadata)
        let s4 := expireMeta s3 now addr metadataTtl
        (.claimed, s4)

/-- `releaseTokenLock(tokenAddress)` of src/bot1.js lines 194-207: deletes
the lock key when Redis is ready; returns without touching the store when
Redis is not ready or the delete throws. -/
def releaseTokenLock (b : Backend) (addr : String) (s : Store) : Store :=
  match b with
  | .notReady => s
  | .erroring => s
  | .ready => delLock s addr

/-- The stringified `tokenData` object built inside `markTokenAsProcessed`. -/
def markFields (now : Nat) (addr : String)
    (metadata : List (String × String)) : List (String × String) :=
  [("tokenAddress", addr), ("processedAt", toString now)] ++ metadata

/-- `markTokenAsProcessed(tokenAddress, metadata)` of src/bot1.js lines
209-251: not ready → `false` without changes; ready → add to the processed
set, store metadata with a 30-day TTL, return `true`; error → `false`. -/
def markTokenAsProcessed (b : Backend) (now : Nat) (addr : String)
    (metadata : List (String × String)) (s : Store) : Bool × Store :=
  match b with
  | .notReady => (false, s)
  | .erroring => (false, s)
  | .ready =>
    let s1 := sAdd s addr
    let s2 := hSetMeta s1 now addr (markFields now addr metadata)
    let s3 := expireMeta s2 now addr metadataTtl
    (true, s3)

/-- `getProcessedTokensCount()` of src/bot1.js lines 253-267: set
cardinality when ready, `0` when not ready or on error. -/
def getProcessedTokensCount (b : Backend) (s : Store) : Nat :=
  match b with
  | .notReady => 0
  | .erroring => 0
  | .ready => sCard s

/-- Is a live claim (non-expired lock) present for `addr` at time `now`? -/
def hasLiveLock (s : Store) (now : Nat) (addr : String) : Bool :=
  (getLiveLock s now addr).isSome

/-- A store operation of the dedup lock store, as invoked by the polling
loop against a ready backend: a claim attempt, a lock release, or an
unconditional mark. -/
inductive Op
  | tryClaim (now : Nat) (addr lockValue : String)
      (metadata : List (String × String))
  | release (addr : String)
  | mark (now : Nat) (addr : String) (metadata : List (String × String))
deriving DecidableEq, Repr

/-- The store-state effect of one operation (ready backend). -/
def applyOp (s : Store) : Op → Store
  | .tryClaim now addr v md =>
      (checkAndMarkTokenAsProcessed .ready now addr v md s).2
  | .release addr => releaseTokenLock .ready addr s
  | .mark now addr md => (markTokenAsProcessed .ready now addr md s).2

/-- Run a sequence of store operations. -/
def runOps (s : Store) : List Op → Store
  | [] => s
  | op :: rest => runOps (applyOp s op) rest

/-- The addresses for which `markTokenAsProcessed` is invoked in a
sequence of operations (with duplicates), read directly off the
operation list. -/
def markedAddrs : List Op → List String
  | [] => []
  | .mark _ addr _ :: rest => addr :: markedAddrs rest
  | _ :: rest => markedAddrs rest

/-- The address an operation "touches" in the amended counting sense:
a mark always, a claim attempt exactly when it returns `claimed`. -/
def stepTouchedAddrs (s : Store) : Op → List String
  | .tryClaim now addr v md =>
      if (checkAndMarkTokenAsProcessed .ready now addr v md s).1 =
          .claimed then [addr] else []
  | .mark _ addr _ => [addr]
  | .release _ => []

/-- The address an operation actually appends to the processed set:
a `claimed` claim appends its address, a mark of a not-yet-member appends
its address, everything else appends nothing. -/
def stepNewAddrs (s : Store) : Op → List String
  | .tryClaim now addr v md =>
      if (checkAndMarkTokenAsProcessed .ready now addr v md s).1 =
          .claimed then [addr] else []
  | .mark _ addr _ =>
      if s.processedTokens.contains addr then [] else [addr]
  | .release _ => []

/-- The addresses for which, along a run, either `markTokenAsProcessed` is
invoked or `checkAndMarkTokenAsProcessed` returns the `claimed` outcome
(with duplicates). -/
def markedOrClaimedAddrs (s : Store) : List Op → List String
  | [] => []
  | op :: rest =>
      stepTouchedAddrs s op ++ markedOrClaimedAddrs (applyOp s op) rest

/-- The addresses newly appended to the processed set along a run (in
append order). -/
def newlyProcessed (s : Store) : List Op → List String
  | [] => []
  | op :: rest =>
      stepNewAddrs s op ++ newlyProcessed (applyOp s op) rest

/-- `isTokenNewEnough(ageInMinutes)` of src/bot1.js lines 309-312 (the
constant is named `maxAgeMinutes` and equals 360). -/
def isTokenNewEnough (ageInMinutes : ℚ) : Bool := ageInMinutes ≤ 360

/-- The outcome of processing one candidate pool in
`processTokensFromPage` (src/bot1.js lines 384-447). -/
inductive CandOutcome
  | skipped
  | rejectedOld
  | rejectedLiquidity
  | signaled
deriving DecidableEq, Repr

/-- The per-candidate body of `processTokensFromPage` (src/bot1.js lines
401-447): atomically claim-and-mark; on skip do nothing more; on a failed
age or liquidity filter release the lock and continue; otherwise send the
signal and release the lock.  `minLiquidity` is `config.minLiquidity`
(environment-configurable, default 1000). -/
def processCandidate (now : Nat) (addr lockValue : String)
    (metadata : List (String × String)) (ageInMinutes reserveUsd : ℚ)
    (minLiquidity : ℚ) (s : Store) : CandOutcome × Store :=
  let r := checkAndMarkTokenAsProcessed .ready now addr lockValue metadata s
  if r.1.toBool then (.skipped, r.2)
  else if !(isTokenNewEnough ageInMinutes) then
    (.rejectedOld, releaseTokenLock .ready addr r.2)
  else if reserveUsd < minLiquidity then
    (.rejectedLiquidity, releaseTokenLock .ready addr r.2)
  else
    (.signaled, releaseTokenLock .ready addr r.2)

/-- The result of the RugCheck HTTP request in `checkTokenSafety`
(src/bot.js lines 357-373 and 2994-3005): either a response whose
`data.score` field may be absent or null (`none`) or a numeric score, or a
failed / timed-out request. -/
inductive RugCheckResult
  | response (score : Option Int)
  | requestFailed
deriving DecidableEq, Repr

/-- `checkTokenSafety(tokenAddress)` of src/bot.js: on a response,
`score = response.data.score || 0` (so an absent, null or zero field
becomes 0) and `isSafe = score <= 400`; on any error the catch block
returns `{isSafe: false, score: null}`. -/
def checkTokenSafety (r : RugCheckResult) : Bool × Option Int :=
  match r with
  | .response score =>
      let sc := score.getD 0
      (decide (sc ≤ 400), some sc)
  | .requestFailed => (false, none)

/-! ### Helper lemmas -/

lemma sIsMember_iff (s : Store) (a : String) :
    sIsMember s a = true ↔ a ∈ s.processedTokens := by
  simp [sIsMember]

lemma sAdd_processedTokens (s : Store) (a : String) :
    (sAdd s a).processedTokens =
      if a ∈ s.processedTokens then s.processedTokens
      else s.processedTokens ++ [a] := by
  simp only [sAdd]
  split <;> simp_all

lemma sAdd_mem (s : Store) (a : String) :
    a ∈ (sAdd s a).processedTokens := by
  rw [sAdd_processedTokens]
  split <;> simp_all

lemma sAdd_mono (s : Store) (a b : String) (h : b ∈ s.processedTokens) :
    b ∈ (sAdd s a).processedTokens := by
  rw [sAdd_processedTokens]
  split <;> simp_all

lemma sAdd_nodup (s : Store) (a : String)
    (h : s.processedTokens.Nodup) : (sAdd s a).processedTokens.Nodup := by
  rw [sAdd_processedTokens]
  split
  · exact h
  · simpa [List.nodup_append] using ⟨h, by assumption⟩

lemma setNxEx_processedTokens (s : Store) (now : Nat) (a v : String)
    (t : Nat) : (setNxEx s now a v t).2.processedTokens = s.processedTokens := by
  unfold setNxEx
  cases h : getLiveLock s now a <;> simp

lemma delLock_processedTokens (s : Store) (a : String) :
    (delLock s a).processedTokens = s.processedTokens := rfl

lemma hSetMeta_processedTokens (s : Store) (now : Nat) (a : String)
    (f : List (String × String)) :
    (hSetMeta s now a f).processedTokens = s.processedTokens := by
  unfold hSetMeta
  cases h : getLiveMeta s now a <;> simp

lemma expireMeta_processedTokens (s : Store) (now : Nat) (a : String)
    (t : Nat) : (expireMeta s now a t).processedTokens = s.processedTokens := rfl

lemma hSetMeta_signalLocks (s : Store) (now : Nat) (a : String)
    (f : List (String × String)) :
    (hSetMeta s now a f).signalLocks = s.signalLocks := by
  unfold hSetMeta
  cases h : getLiveMeta s now a <;> simp

lemma expireMeta_signalLocks (s : Store) (now : Nat) (a : String)
    (t : Nat) : (expireMeta s now a t).signalLocks = s.signalLocks := rfl

lemma sAdd_signalLocks (s : Store) (a : String) :
    (sAdd s a).signalLocks = s.signalLocks := by
  unfold sAdd
  split <;> simp

/-- With a ready backend and a live lock present, the claim attempt takes
the `!lockAcquired` branch: it returns `true` (skip) and leaves the store
unchanged. -/
lemma checkAndMark_ready_locked (s : Store) (now : Nat) (a v : String)
    (md : List (String × String)) (h : hasLiveLock s now a = true) :
    checkAndMarkTokenAsProcessed .ready now a v md s =
      (.alreadyInProgress, s) := by
  unfold hasLiveLock at h
  cases heq : getLiveLock s now a with
  | none => rw [heq] at h; simp at h
  | some e => simp [checkAndMarkTokenAsProcessed, setNxEx, heq]

/-- With a ready backend, no live lock and a fresh address, the claim
attempt succeeds: the result is `claimed` and the store first gains the
lock entry, then the processed-set member, then the metadata hash. -/
lemma checkAndMark_ready_fresh (s : Store) (now : Nat) (a v : String)
    (md : List (String × String)) (hl : getLiveLock s now a = none)
    (hm : a ∉ s.processedTokens) :
    checkAndMarkTokenAsProcessed .ready now a v md s =
      (.claimed,
        expireMeta
          (hSetMeta
            (sAdd
              { s with signalLocks :=
                  ⟨a, v, now + lockTtl⟩ ::
                    s.signalLocks.filter (fun e => e.token != a) } a)
            now a (claimFields now a v md))
          now a metadataTtl) := by
  simp only [checkAndMarkTokenAsProcessed, setNxEx, hl]
  have : sIsMember
      { s with signalLocks :=
          ⟨a, v, now + lockTtl⟩ ::
            s.signalLocks.filter (fun e => e.token != a) } a = false := by
    simp [sIsMember, hm]
  simp [this]

/-- With a ready backend and the address already a member of the processed
set, the claim attempt returns `true` (skip) and the processed set is
unchanged. -/
lemma checkAndMark_ready_member (s : Store) (now : Nat) (a v : String)
    (md : List (String × String)) (hm : a ∈ s.processedTokens) :
    (checkAndMarkTokenAsProcessed .ready now a v md s).1.toBool = true ∧
    (checkAndMarkTokenAsProcessed .ready now a v md s).2.processedTokens =
      s.processedTokens := by
  unfold checkAndMarkTokenAsProcessed
  cases heq : getLiveLock s now a with
  | some e => simp [setNxEx, heq, ClaimOutcome.toBool]
  | none =>
    have hmem : sIsMember
        { s with signalLocks :=
            ⟨a, v, now + lockTtl⟩ ::
              s.signalLocks.filter (fun e => e.token != a) } a = true := by
      simp [sIsMember, hm]
    simp [setNxEx, heq, hmem, ClaimOutcome.toBool, delLock_processedTokens]

/-- The ready-backend claim attempt returns `claimed` exactly when no live
lock exists and the address is not yet in the processed set. -/
lemma checkAndMark_claimed_iff (s : Store) (now : Nat) (a v : String)
    (md : List (String × String)) :
    (checkAndMarkTokenAsProcessed .ready now a v md s).1 = .claimed ↔
      getLiveLock s now a = none ∧ a ∉ s.processedTokens := by
  constructor
  · intro h
    cases heq : getLiveLock s now a with
    | some e =>
      rw [checkAndMark_ready_locked s now a v md
        (by simp [hasLiveLock, heq])] at h
      exact absurd h (by simp)
    | none =>
      refine ⟨rfl, fun hm => ?_⟩
      rcases checkAndMark_ready_member s now a v md hm with ⟨ht, _⟩
      rw [h] at ht
      exact absurd ht (by simp [ClaimOutcome.toBool])
  · rintro ⟨hl, hm⟩
    rw [checkAndMark_ready_fresh s now a v md hl hm]

/-- Effect of a claim attempt on the processed set, over all backends: the
address is appended exactly when the outcome is `claimed`. -/
lemma checkAndMark_processedTokens (b : Backend) (now : Nat) (a v : String)
    (md : List (String × String)) (s : Store) :
    (checkAndMarkTokenAsProcessed b now a v md s).2.processedTokens =
      if (checkAndMarkTokenAsProcessed b now a v md s).1 = .claimed then
        s.processedTokens ++ [a]
      else s.processedTokens := by
  cases b with
  | notReady => simp [checkAndMarkTokenAsProcessed]
  | erroring => simp [checkAndMarkTokenAsProcessed]
  | ready =>
    by_cases hc :
        (checkAndMarkTokenAsProcessed .ready now a v md s).1 = .claimed
    · rcases (checkAndMark_claimed_iff s now a v md).mp hc with ⟨hl, hm⟩
      rw [checkAndMark_ready_fresh s now a v md hl hm]
      simp [expireMeta_processedTokens, hSetMeta_processedTokens,
        sAdd_processedTokens, hm, hc]
    · simp only [if_neg hc]
      cases heq : getLiveLock s now a with
      | some e =>
        rw [checkAndMark_ready_locked s now a v md
          (by simp [hasLiveLock, heq])]
      | none =>
        by_cases hm : a ∈ s.processedTokens
        · exact (checkAndMark_ready_member s now a v md hm).2
        · exact absurd ((checkAndMark_claimed_iff s now a v md).mpr
            ⟨heq, hm⟩) hc

lemma releaseTokenLock_processedTokens (b : Backend) (a : String)
    (s : Store) : (releaseTokenLock b a s).processedTokens =
      s.processedTokens := by
  cases b <;> rfl

lemma releaseTokenLock_tokenMetadata (b : Backend) (a : String)
    (s : Store) : (releaseTokenLock b a s).tokenMetadata =
      s.tokenMetadata := by
  cases b <;> rfl

lemma markTokenAsProcessed_ready_processedTokens (now : Nat) (a : String)
    (md : List (String × String)) (s : Store) :
    (markTokenAsProcessed .ready now a md s).2.processedTokens =
      (sAdd s a).processedTokens := by
  simp [markTokenAsProcessed, expireMeta_processedTokens,
    hSetMeta_processedTokens]

lemma markTokenAsProcessed_signalLocks (b : Backend) (now : Nat)
    (a : String) (md : List (String × String)) (s : Store) :
    (markTokenAsProcessed b now a md s).2.signalLocks = s.signalLocks := by
  cases b with
  | notReady => rfl
  | erroring => rfl
  | ready =>
    simp [markTokenAsProcessed, expireMeta_signalLocks, hSetMeta_signalLocks,
      sAdd_signalLocks]

/-- Membership in the processed set is preserved by every store
operation. -/
lemma applyOp_processed_mono (s : Store) (op : Op) (a : String)
    (h : a ∈ s.processedTokens) : a ∈ (applyOp s op).processedTokens := by
  cases op with
  | tryClaim now addr v md =>
    show a ∈ (checkAndMarkTokenAsProcessed .ready now addr v md s).2.processedTokens
    rw [checkAndMark_processedTokens]
    split
    · exact List.mem_append_left _ h
    · exact h
  | release addr =>
    simpa [applyOp, releaseTokenLock_processedTokens] using h
  | mark now addr md =>
    show a ∈ (markTokenAsProcessed .ready now addr md s).2.processedTokens
    rw [markTokenAsProcessed_ready_processedTokens]
    exact sAdd_mono s addr a h

lemma runOps_processed_mono (ops : List Op) :
    ∀ s : Store, ∀ a : String, a ∈ s.processedTokens →
      a ∈ (runOps s ops).processedTokens := by
  induction ops with
  | nil => intro s a h; exact h
  | cons op rest ih =>
    intro s a h
    exact ih (applyOp s op) a (applyOp_processed_mono s op a h)

lemma applyOp_nodup (s : Store) (op : Op)
    (h : s.processedTokens.Nodup) : (applyOp s op).processedTokens.Nodup := by
  cases op with
  | tryClaim now addr v md =>
    show (checkAndMarkTokenAsProcessed .ready now addr v md s).2.processedTokens.Nodup
    rw [checkAndMark_processedTokens]
    split
    · next hc =>
      rcases (checkAndMark_claimed_iff s now addr v md).mp hc with ⟨_, hm⟩
      simpa [List.nodup_append] using ⟨h, hm⟩
    · exact h
  | release addr =>
    simpa [applyOp, releaseTokenLock_processedTokens] using h
  | mark now addr md =>
    show (markTokenAsProcessed .ready now addr md s).2.processedTokens.Nodup
    rw [markTokenAsProcessed_ready_processedTokens]
    exact sAdd_nodup s addr h

lemma delLock_no_live (s : Store) (now : Nat) (a : String) :
    getLiveLock (delLock s a) now a = none := by
  rw [getLiveLock, List.find?_eq_none]
  intro e he
  rcases List.mem_filter.mp he with ⟨_, hne⟩
  simp only [bne_iff_ne, ne_eq, decide_eq_true_eq] at hne
  simp [hne]

lemma delLock_no_entry (s : Store) (a : String) :
    ∀ e ∈ (delLock s a).signalLocks, e.token ≠ a := by
  intro e he
  rcases List.mem_filter.mp he with ⟨_, hne⟩
  simpa using hne

/-- With a ready backend, no live lock but the address already in the
processed set, the claim attempt acquires the lock, then takes the
`alreadyProcessed` branch. -/
lemma checkAndMark_ready_unlocked_member (s : Store) (now : Nat)
    (a v : String) (md : List (String × String))
    (hl : getLiveLock s now a = none) (hm : a ∈ s.processedTokens) :
    (checkAndMarkTokenAsProcessed .ready now a v md s).1 =
      .alreadyProcessed := by
  simp only [checkAndMarkTokenAsProcessed, setNxEx, hl]
  have hmem : sIsMember
      { s with signalLocks :=
          ⟨a, v, now + lockTtl⟩ ::
            s.signalLocks.filter (fun e => e.token != a) } a = true := by
    simp [sIsMember, hm]
  simp [hmem]

/-! ### Claim theorems -/

/-- C1: mutual exclusion of claims.  While a live (non-expired) lock exists
for an address, a ready-backend `checkAndMarkTokenAsProcessed` call does
not return the `claimed` outcome — it returns the skip value `true`
(`alreadyInProgress`).  Consequently, of two claim calls on the same fresh
address, the first returns `claimed` and the second — at any later wall
clock whatsoever — returns `alreadyInProgress` or `alreadyProcessed`, never
`claimed`. -/
theorem mutual_exclusion_of_claims (now now' : Nat) (addr v1 v2 : String)
    (md1 md2 : List (String × String)) (s : Store) :
    (hasLiveLock s now addr = true →
      (checkAndMarkTokenAsProcessed .ready now addr v1 md1 s).1 ≠
          .claimed ∧
      (checkAndMarkTokenAsProcessed .ready now addr v1 md1 s).1.toBool =
          true) ∧
    (hasLiveLock s now addr = false → addr ∉ s.processedTokens →
      (checkAndMarkTokenAsProcessed .ready now addr v1 md1 s).1 =
          .claimed ∧
      ((checkAndMarkTokenAsProcessed .ready now' addr v2 md2
          (checkAndMarkTokenAsProcessed .ready now addr v1 md1 s).2).1 =
            .alreadyInProgress ∨
       (checkAndMarkTokenAsProcessed .ready now' addr v2 md2
          (checkAndMarkTokenAsProcessed .ready now addr v1 md1 s).2).1 =
            .alreadyProcessed) ∧
      (checkAndMarkTokenAsProcessed .ready now' addr v2 md2
          (checkAndMarkTokenAsProcessed .ready now addr v1 md1 s).2).1 ≠
            .claimed) := by
  constructor
  · intro h
    rw [checkAndMark_ready_locked s now addr v1 md1 h]
    exact ⟨by simp, rfl⟩
  · intro h hm
    have hl : getLiveLock s now addr = none := by
      unfold hasLiveLock at h
      exact Option.not_isSome_iff_eq_none.mp (by simp [h])
    have hc : (checkAndMarkTokenAsProcessed .ready now addr v1 md1 s).1 =
        .claimed := (checkAndMark_claimed_iff s now addr v1 md1).mpr ⟨hl, hm⟩
    set s1 := (checkAndMarkTokenAsProcessed .ready now addr v1 md1 s).2 with hs1
    have hmem1 : addr ∈ s1.processedTokens := by
      rw [hs1, checkAndMark_processedTokens, if_pos hc]
      simp
    have hsecond :
        (checkAndMarkTokenAsProcessed .ready now' addr v2 md2 s1).1 =
            .alreadyInProgress ∨
        (checkAndMarkTokenAsProcessed .ready now' addr v2 md2 s1).1 =
            .alreadyProcessed := by
      cases heq : getLiveLock s1 now' addr with
      | some e =>
        left
        rw [checkAndMark_ready_locked s1 now' addr v2 md2
          (by simp [hasLiveLock, heq])]
      | none =>
        right
        exact checkAndMark_ready_unlocked_member s1 now' addr v2 md2 heq hmem1
    refine ⟨hc, hsecond, ?_⟩
    rcases hsecond with h2 | h2 <;> simp [h2]

/-- C1 witness at concrete inputs: store with a live lock for `"A"` at time
0, and the empty store for the two-call race on `"B"`. -/
theorem mutual_exclusion_of_claims_witness :
    ((checkAndMarkTokenAsProcessed .ready 0 "A" "w" []
        ⟨[], [⟨"A", "v", 600⟩], []⟩).1 ≠ .claimed) ∧
    ((checkAndMarkTokenAsProcessed .ready 0 "B" "v1" [] Store.empty).1 =
        .claimed ∧
      ((checkAndMarkTokenAsProcessed .ready 5 "B" "v2" []
          (checkAndMarkTokenAsProcessed .ready 0 "B" "v1" []
            Store.empty).2).1 = .alreadyInProgress ∨
       (checkAndMarkTokenAsProcessed .ready 5 "B" "v2" []
          (checkAndMarkTokenAsProcessed .ready 0 "B" "v1" []
            Store.empty).2).1 = .alreadyProcessed) ∧
      (checkAndMarkTokenAsProcessed .ready 5 "B" "v2" []
          (checkAndMarkTokenAsProcessed .ready 0 "B" "v1" []
            Store.empty).2).1 ≠ .claimed) :=
  ⟨((mutual_exclusion_of_claims 0 5 "A" "w" "x" [] []
      ⟨[], [⟨"A", "v", 600⟩], []⟩).1 (by decide)).1,
   (mutual_exclusion_of_claims 0 5 "B" "v1" "v2" [] [] Store.empty).2
     (by decide) (by decide)⟩

/-- C2: idempotent terminal state.  Marking establishes processed-set
membership; membership is preserved by every sequence of claim, release
and mark operations (there is no removal operation); and once the address
is a member, any subsequent ready-backend claim call returns the skip
value `true` — in the source both the `alreadyProcessed` branch and the
`alreadyInProgress` branch return the same value `true`, so this holds
regardless of whether a live claim also exists. -/
theorem idempotent_terminal_state (now now' : Nat) (addr v : String)
    (md md' : List (String × String)) (s : Store) (ops : List Op) :
    (addr ∈ (markTokenAsProcessed .ready now addr md s).2.processedTokens) ∧
    (∀ a, a ∈ s.processedTokens → a ∈ (runOps s ops).processedTokens) ∧
    (addr ∈ s.processedTokens →
      (checkAndMarkTokenAsProcessed .ready now' addr v md'
        (runOps s ops)).1.toBool = true) := by
  refine ⟨?_, fun a ha => runOps_processed_mono ops s a ha, fun hm => ?_⟩
  · rw [markTokenAsProcessed_ready_processedTokens]
    exact sAdd_mem s addr
  · exact (checkAndMark_ready_member (runOps s ops) now' addr v md'
      (runOps_processed_mono ops s addr hm)).1

/-- C2 witness: after marking `"A"` in the empty store, `"A"` stays a
member across a further mark and a release, and a claim attempt then
returns `true`. -/
theorem idempotent_terminal_state_witness :
    ("A" ∈ (markTokenAsProcessed .ready 0 "A" []
        (markTokenAsProcessed .ready 0 "A" []
          Store.empty).2).2.processedTokens) ∧
    ("A" ∈ (runOps (markTokenAsProcessed .ready 0 "A" [] Store.empty).2
        [Op.mark 1 "B" [], Op.release "A"]).processedTokens) ∧
    ((checkAndMarkTokenAsProcessed .ready 7 "A" "v" []
        (runOps (markTokenAsProcessed .ready 0 "A" [] Store.empty).2
          [Op.mark 1 "B" [], Op.release "A"])).1.toBool = true) :=
  ⟨(idempotent_terminal_state 0 7 "A" "v" [] []
      (markTokenAsProcessed .ready 0 "A" [] Store.empty).2
      [Op.mark 1 "B" [], Op.release "A"]).1,
   (idempotent_terminal_state 0 7 "A" "v" [] []
      (markTokenAsProcessed .ready 0 "A" [] Store.empty).2
      [Op.mark 1 "B" [], Op.release "A"]).2.1 "A" (by decide),
   (idempotent_terminal_state 0 7 "A" "v" [] []
      (markTokenAsProcessed .ready 0 "A" [] Store.empty).2
      [Op.mark 1 "B" [], Op.release "A"]).2.2 (by decide)⟩

/-- C4: fail-open on backend unavailability.  When Redis is not ready or
the Redis command throws, `checkAndMarkTokenAsProcessed` and
`isTokenProcessed` both return `false` ("not processed, safe to proceed")
and leave the store untouched. -/
theorem fail_open_on_backend_unavailable (now : Nat) (addr v : String)
    (md : List (String × String)) (s : Store) :
    (checkAndMarkTokenAsProcessed .notReady now addr v md s).1.toBool =
        false ∧
    (checkAndMarkTokenAsProcessed .erroring now addr v md s).1.toBool =
        false ∧
    isTokenProcessed .notReady s addr = false ∧
    isTokenProcessed .erroring s addr = false ∧
    (checkAndMarkTokenAsProcessed .notReady now addr v md s).2 = s ∧
    (checkAndMarkTokenAsProcessed .erroring now addr v md s).2 = s := by
  simp [checkAndMarkTokenAsProcessed, isTokenProcessed, ClaimOutcome.toBool]

/-- C5: release semantics.  `releaseTokenLock` with a ready backend leaves
no lock entry for the address (it deletes the claim whatever `lockValue`
it stores — no ownership check); it is the identity when no entry for the
address exists; it is idempotent; and under every backend condition it
never changes the processed set or the metadata. -/
theorem release_semantics (b : Backend) (now : Nat) (addr : String)
    (s : Store) :
    (getLiveLock (releaseTokenLock .ready addr s) now addr = none) ∧
    (∀ e ∈ (releaseTokenLock .ready addr s).signalLocks, e.token ≠ addr) ∧
    ((∀ e ∈ s.signalLocks, e.token ≠ addr) →
      releaseTokenLock .ready addr s = s) ∧
    (releaseTokenLock .ready addr (releaseTokenLock .ready addr s) =
      releaseTokenLock .ready addr s) ∧
    ((releaseTokenLock b addr s).processedTokens = s.processedTokens) ∧
    ((releaseTokenLock b addr s).tokenMetadata = s.tokenMetadata) := by
  have hid : ∀ s' : Store, (∀ e ∈ s'.signalLocks, e.token ≠ addr) →
      releaseTokenLock .ready addr s' = s' := by
    intro s' h
    show delLock s' addr = s'
    unfold delLock
    rw [List.filter_eq_self.mpr (fun e he => by simpa using h e he)]
  refine ⟨delLock_no_live s now addr, delLock_no_entry s addr, hid s, ?_,
    releaseTokenLock_processedTokens b addr s,
    releaseTokenLock_tokenMetadata b addr s⟩
  exact hid (releaseTokenLock .ready addr s) (delLock_no_entry s addr)

/-- C5 witness: a store holding a lock for `"A"` with some other caller's
value; release deletes it regardless of that value, twice-release equals
once-release, the processed set and metadata are untouched, and on a store
with no `"A"` entry (only an expired-irrelevant `"B"` lock) release is the
identity. -/
theorem release_semantics_witness :
    (getLiveLock (releaseTokenLock .ready "A"
        ⟨["A"], [⟨"A", "someone-elses-value", 600⟩], []⟩) 0 "A" = none) ∧
    ("A" ∉ (releaseTokenLock .ready "A"
        ⟨["A"], [⟨"A", "someone-elses-value", 600⟩], []⟩).signalLocks.map
          LockEntry.token) ∧
    (releaseTokenLock .ready "A" ⟨[], [⟨"B", "v", 600⟩], []⟩ =
      ⟨[], [⟨"B", "v", 600⟩], []⟩) ∧
    (releaseTokenLock .ready "A" (releaseTokenLock .ready "A"
        ⟨["A"], [⟨"A", "someone-elses-value", 600⟩], []⟩) =
      releaseTokenLock .ready "A"
        ⟨["A"], [⟨"A", "someone-elses-value", 600⟩], []⟩) ∧
    ((releaseTokenLock .notReady "A"
        ⟨["A"], [⟨"A", "someone-elses-value", 600⟩], []⟩).processedTokens =
      ["A"]) ∧
    ((releaseTokenLock .notReady "A"
        ⟨["A"], [⟨"A", "someone-elses-value", 600⟩], []⟩).tokenMetadata =
      []) := by
  have h := release_semantics .notReady 0 "A"
    ⟨["A"], [⟨"A", "someone-elses-value", 600⟩], []⟩
  have h2 := release_semantics .notReady 0 "A" ⟨[], [⟨"B", "v", 600⟩], []⟩
  refine ⟨h.1, ?_, h2.2.2.1 (by decide), h.2.2.2.1, h.2.2.2.2.1, h.2.2.2.2.2⟩
  intro hmem
  rcases List.mem_map.mp hmem with ⟨e, he, het⟩
  exact h.2.1 e he het

lemma expireMeta_cons_live (p : List String) (lk : List LockEntry)
    (e : MetaEntry) (l : List MetaEntry) (a : String) (now t : Nat)
    (ht : 0 < t) (htok : e.token = a) (hlive : metaIsLive now e = true) :
    getLiveMeta (expireMeta ⟨p, lk, e :: l⟩ now a t) now a =
      some ⟨e.token, e.fields, some (now + t)⟩ := by
  have hcond : (e.token == a && metaIsLive now e) = true := by
    simp [htok, hlive]
  unfold expireMeta getLiveMeta
  simp only [List.map_cons, if_pos hcond]
  rw [List.find?_cons_of_pos]
  simp [htok, metaIsLive, ht]

/-- After `hSet` followed by `expire` (the metadata write-path of both
`markTokenAsProcessed` and `checkAndMarkTokenAsProcessed`), a live
metadata hash for the address exists with TTL `now + t`. -/
lemma getLiveMeta_expire_hSet (s : Store) (now : Nat) (a : String)
    (f : List (String × String)) (t : Nat) (ht : 0 < t) :
    ∃ fs, getLiveMeta (expireMeta (hSetMeta s now a f) now a t) now a =
      some ⟨a, fs, some (now + t)⟩ := by
  unfold hSetMeta
  cases hfind : getLiveMeta s now a with
  | none =>
    exact ⟨f, expireMeta_cons_live _ _ ⟨a, f, none⟩ _ a now t ht rfl rfl⟩
  | some m =>
    have hpred := List.find?_some hfind
    have hlive : metaIsLive now m = true := by
      simp only [Bool.and_eq_true] at hpred
      exact hpred.2
    exact ⟨mergeFields m.fields f,
      expireMeta_cons_live _ _ ⟨a, mergeFields m.fields f, m.expiresAt⟩ _
        a now t ht rfl hlive⟩

/-- C6: `markTokenAsProcessed` is unconditional, idempotent and
claim-independent.  With a ready backend it makes the address a member of
the processed set regardless of the rest of the store (in particular it
never reads or writes any lock entry, under every backend condition);
marking twice leaves the same processed set as marking once; and it stores
a metadata hash with its own independent 30-day TTL. -/
theorem mark_unconditional_idempotent (b : Backend) (now now2 : Nat)
    (addr : String) (md md2 : List (String × String)) (s : Store) :
    (addr ∈ (markTokenAsProcessed .ready now addr md s).2.processedTokens) ∧
    ((markTokenAsProcessed b now addr md s).2.signalLocks =
      s.signalLocks) ∧
    ((markTokenAsProcessed .ready now2 addr md2
        (markTokenAsProcessed .ready now addr md s).2).2.processedTokens =
      (markTokenAsProcessed .ready now addr md s).2.processedTokens) ∧
    (∃ fs, getLiveMeta (markTokenAsProcessed .ready now addr md s).2 now
        addr = some ⟨addr, fs, some (now + metadataTtl)⟩) ∧
    metadataTtl = 30 * 24 * 60 * 60 := by
  refine ⟨?_, markTokenAsProcessed_signalLocks b now addr md s, ?_, ?_, rfl⟩
  · rw [markTokenAsProcessed_ready_processedTokens]
    exact sAdd_mem s addr
  · have hmem :
        addr ∈ (markTokenAsProcessed .ready now addr md s).2.processedTokens := by
      rw [markTokenAsProcessed_ready_processedTokens]
      exact sAdd_mem s addr
    rw [markTokenAsProcessed_ready_processedTokens, sAdd_processedTokens,
      if_pos hmem]
  · exact getLiveMeta_expire_hSet (sAdd s addr) now addr
      (markFields now addr md) metadataTtl (by decide)

/-- C6 witness: marking `"A"` in a store that holds a live claim for `"A"`
leaves the lock untouched, adds the member, is idempotent on the processed
set, and stores metadata expiring 30 days after `now = 5`. -/
theorem mark_unconditional_idempotent_witness :
    ("A" ∈ (markTokenAsProcessed .ready 5 "A" [("reason", "test")]
        ⟨[], [⟨"A", "v", 600⟩], []⟩).2.processedTokens) ∧
    ((markTokenAsProcessed .ready 5 "A" [("reason", "test")]
        ⟨[], [⟨"A", "v", 600⟩], []⟩).2.signalLocks = [⟨"A", "v", 600⟩]) ∧
    ((markTokenAsProcessed .ready 9 "A" []
        (markTokenAsProcessed .ready 5 "A" [("reason", "test")]
          ⟨[], [⟨"A", "v", 600⟩], []⟩).2).2.processedTokens =
      (markTokenAsProcessed .ready 5 "A" [("reason", "test")]
        ⟨[], [⟨"A", "v", 600⟩], []⟩).2.processedTokens) ∧
    (∃ fs, getLiveMeta (markTokenAsProcessed .ready 5 "A"
        [("reason", "test")] ⟨[], [⟨"A", "v", 600⟩], []⟩).2 5 "A" =
      some ⟨"A", fs, some (5 + metadataTtl)⟩) ∧
    metadataTtl = 30 * 24 * 60 * 60 :=
  mark_unconditional_idempotent .ready 5 9 "A" [("reason", "test")] []
    ⟨[], [⟨"A", "v", 600⟩], []⟩

lemma checkAndMark_fresh_signalLocks (s : Store) (now : Nat) (a v : String)
    (md : List (String × String)) (hl : getLiveLock s now a = none)
    (hm : a ∉ s.processedTokens) :
    (checkAndMarkTokenAsProcessed .ready now a v md s).2.signalLocks =
      ⟨a, v, now + lockTtl⟩ ::
        s.signalLocks.filter (fun e => e.token != a) := by
  rw [checkAndMark_ready_fresh s now a v md hl hm]
  simp [expireMeta_signalLocks, hSetMeta_signalLocks, sAdd_signalLocks]

/-- C3 counterexample: on the empty store, a claim of `"A"` at time 0
succeeds; with no release and no further mark, a claim by a different
caller at time 601 (wall clock > the 600-second lease) does NOT return
`claimed` — the code returns `true` (skip) through the `alreadyProcessed`
branch, because `checkAndMarkTokenAsProcessed` put `"A"` into the
processed set at claim time. -/
theorem lease_expiry_counterexample :
    (checkAndMarkTokenAsProcessed .ready 0 "A" "v1" [] Store.empty).1 =
      .claimed ∧
    hasLiveLock
      (checkAndMarkTokenAsProcessed .ready 0 "A" "v1" [] Store.empty).2
      601 "A" = false ∧
    (checkAndMarkTokenAsProcessed .ready 601 "A" "v2" []
      (checkAndMarkTokenAsProcessed .ready 0 "A" "v1" []
        Store.empty).2).1 = .alreadyProcessed ∧
    ((checkAndMarkTokenAsProcessed .ready 601 "A" "v2" []
      (checkAndMarkTokenAsProcessed .ready 0 "A" "v1" []
        Store.empty).2).1 ≠ .claimed) := by decide

/-- C3 amended: the claim record's time-to-live is 600 seconds (10
minutes): a successful claim stores a lock expiring at `now + 600`, and
after wall-clock time past the lease the lock is no longer live, so a new
claim attempt is not blocked by the `!lockAcquired` branch; but it returns
`alreadyProcessed` (skip), not `claimed`, because the successful claim
already added the address to the processed set. -/
theorem lease_expiry_behavior (now now' : Nat) (addr v1 v2 : String)
    (md1 md2 : List (String × String)) (s : Store)
    (hl : getLiveLock s now addr = none) (hm : addr ∉ s.processedTokens)
    (hexp : now + lockTtl ≤ now') :
    lockTtl = 600 ∧
    (checkAndMarkTokenAsProcessed .ready now addr v1 md1 s).1 = .claimed ∧
    getLiveLock (checkAndMarkTokenAsProcessed .ready now addr v1 md1 s).2
      now addr = some ⟨addr, v1, now + lockTtl⟩ ∧
    hasLiveLock (checkAndMarkTokenAsProcessed .ready now addr v1 md1 s).2
      now' addr = false ∧
    (checkAndMarkTokenAsProcessed .ready now' addr v2 md2
      (checkAndMarkTokenAsProcessed .ready now addr v1 md1 s).2).1 =
      .alreadyProcessed := by
  have hlocks := checkAndMark_fresh_signalLocks s now addr v1 md1 hl hm
  have hc : (checkAndMarkTokenAsProcessed .ready now addr v1 md1 s).1 =
      .claimed := (checkAndMark_claimed_iff s now addr v1 md1).mpr ⟨hl, hm⟩
  have hmem1 : addr ∈
      (checkAndMarkTokenAsProcessed .ready now addr v1 md1 s).2.processedTokens := by
    rw [checkAndMark_processedTokens, if_pos hc]
    simp
  have hexp' : now + 600 ≤ now' := by simpa [lockTtl] using hexp
  have hdead : getLiveLock
      (checkAndMarkTokenAsProcessed .ready now addr v1 md1 s).2 now'
      addr = none := by
    unfold getLiveLock
    rw [hlocks, List.find?_cons_of_neg, List.find?_eq_none]
    · intro e he
      have hne : e.token ≠ addr := by
        rcases List.mem_filter.mp he with ⟨_, h⟩
        simpa using h
      simp [hne]
    · simp only [Bool.and_eq_true, beq_self_eq_true, true_and, lockIsLive,
        lockTtl, decide_eq_true_eq]
      omega
  refine ⟨rfl, hc, ?_, ?_, ?_⟩
  · unfold getLiveLock
    rw [hlocks, List.find?_cons_of_pos]
    simp [lockIsLive, lockTtl]
  · simp [hasLiveLock, hdead]
  · exact checkAndMark_ready_unlocked_member _ now' addr v2 md2 hdead hmem1

/-- C3 amended witness: concrete run on the empty store at times 0 and
601. -/
theorem lease_expiry_behavior_witness :
    lockTtl = 600 ∧
    (checkAndMarkTokenAsProcessed .ready 0 "A" "v1" [] Store.empty).1 =
      .claimed ∧
    getLiveLock (checkAndMarkTokenAsProcessed .ready 0 "A" "v1" []
      Store.empty).2 0 "A" = some ⟨"A", "v1", 0 + lockTtl⟩ ∧
    hasLiveLock (checkAndMarkTokenAsProcessed .ready 0 "A" "v1" []
      Store.empty).2 601 "A" = false ∧
    (checkAndMarkTokenAsProcessed .ready 601 "A" "v2" []
      (checkAndMarkTokenAsProcessed .ready 0 "A" "v1" []
        Store.empty).2).1 = .alreadyProcessed :=
  lease_expiry_behavior 0 601 "A" "v1" "v2" [] [] Store.empty
    (by decide) (by decide) (by decide)

/-- With a ready backend the claim attempt never takes the not-ready or
catch return paths. -/
lemma checkAndMark_ready_outcome (s : Store) (now : Nat) (a v : String)
    (md : List (String × String)) :
    (checkAndMarkTokenAsProcessed .ready now a v md s).1 ≠
        .notReadyProceed ∧
    (checkAndMarkTokenAsProcessed .ready now a v md s).1 ≠
        .errorProceed := by
  unfold checkAndMarkTokenAsProcessed setNxEx
  cases heq : getLiveLock s now a
  · simp only [heq]
    constructor <;> split <;> simp
  · simp [heq]

/-- With a ready backend, a returned `false` (proceed) means the claim
succeeded. -/
lemma checkAndMark_ready_false_claimed (s : Store) (now : Nat)
    (a v : String) (md : List (String × String))
    (h : (checkAndMarkTokenAsProcessed .ready now a v md s).1.toBool =
      false) :
    (checkAndMarkTokenAsProcessed .ready now a v md s).1 = .claimed := by
  rcases checkAndMark_ready_outcome s now a v md with ⟨h1, h2⟩
  cases ho : (checkAndMarkTokenAsProcessed .ready now a v md s).1 with
  | notReadyProceed => exact absurd ho h1
  | errorProceed => exact absurd ho h2
  | alreadyInProgress =>
    rw [ho] at h
    exact absurd h (by simp [ClaimOutcome.toBool])
  | alreadyProcessed =>
    rw [ho] at h
    exact absurd h (by simp [ClaimOutcome.toBool])
  | claimed => rfl

/-- C8: no-throw failure semantics.  Under a not-ready backend and under a
throwing backend, each of the five store operations returns its fallback
value as an ordinary result (and leaves the store untouched); and the
expected outcomes "already claimed" and "already processed" are ordinary
returned values (`true`), not error conditions. -/
theorem no_throw_failure_semantics (now : Nat) (addr v : String)
    (md : List (String × String)) (s : Store) :
    (isTokenProcessed .notReady s addr = false) ∧
    (isTokenProcessed .erroring s addr = false) ∧
    (checkAndMarkTokenAsProcessed .notReady now addr v md s =
      (.notReadyProceed, s)) ∧
    (checkAndMarkTokenAsProcessed .erroring now addr v md s =
      (.errorProceed, s)) ∧
    (releaseTokenLock .notReady addr s = s) ∧
    (releaseTokenLock .erroring addr s = s) ∧
    (markTokenAsProcessed .notReady now addr md s = (false, s)) ∧
    (markTokenAsProcessed .erroring now addr md s = (false, s)) ∧
    (getProcessedTokensCount .notReady s = 0) ∧
    (getProcessedTokensCount .erroring s = 0) ∧
    (hasLiveLock s now addr = true →
      (checkAndMarkTokenAsProcessed .ready now addr v md s).1.toBool =
        true) ∧
    (hasLiveLock s now addr = false → addr ∈ s.processedTokens →
      (checkAndMarkTokenAsProcessed .ready now addr v md s).1.toBool =
        true) := by
  refine ⟨rfl, rfl, rfl, rfl, rfl, rfl, rfl, rfl, rfl, rfl, ?_, ?_⟩
  · intro h
    rw [checkAndMark_ready_locked s now addr v md h]
    rfl
  · intro h hm
    have hl : getLiveLock s now addr = none := by
      unfold hasLiveLock at h
      exact Option.not_isSome_iff_eq_none.mp (by simp [h])
    rw [checkAndMark_ready_unlocked_member s now addr v md hl hm]
    rfl

/-- C8 witness: the fallback equations at a one-member store, plus the
ordinary skip returns for a locked and for an already-processed address. -/
theorem no_throw_failure_semantics_witness :
    (isTokenProcessed .notReady ⟨["A"], [], []⟩ "A" = false) ∧
    (isTokenProcessed .erroring ⟨["A"], [], []⟩ "A" = false) ∧
    (checkAndMarkTokenAsProcessed .notReady 0 "A" "v" [] ⟨["A"], [], []⟩ =
      (.notReadyProceed, ⟨["A"], [], []⟩)) ∧
    (checkAndMarkTokenAsProcessed .erroring 0 "A" "v" [] ⟨["A"], [], []⟩ =
      (.errorProceed, ⟨["A"], [], []⟩)) ∧
    (releaseTokenLock .notReady "A" ⟨["A"], [], []⟩ = ⟨["A"], [], []⟩) ∧
    (releaseTokenLock .erroring "A" ⟨["A"], [], []⟩ = ⟨["A"], [], []⟩) ∧
    (markTokenAsProcessed .notReady 0 "A" [] ⟨["A"], [], []⟩ =
      (false, ⟨["A"], [], []⟩)) ∧
    (markTokenAsProcessed .erroring 0 "A" [] ⟨["A"], [], []⟩ =
      (false, ⟨["A"], [], []⟩)) ∧
    (getProcessedTokensCount .notReady ⟨["A"], [], []⟩ = 0) ∧
    (getProcessedTokensCount .erroring ⟨["A"], [], []⟩ = 0) ∧
    ((checkAndMarkTokenAsProcessed .ready 0 "B" "v" []
        ⟨[], [⟨"B", "w", 600⟩], []⟩).1.toBool = true) ∧
    ((checkAndMarkTokenAsProcessed .ready 0 "A" "v" []
        ⟨["A"], [], []⟩).1.toBool = true) := by
  have h1 := no_throw_failure_semantics 0 "A" "v" [] ⟨["A"], [], []⟩
  have h2 := no_throw_failure_semantics 0 "B" "v" []
    ⟨[], [⟨"B", "w", 600⟩], []⟩
  exact ⟨h1.1, h1.2.1, h1.2.2.1, h1.2.2.2.1, h1.2.2.2.2.1,
    h1.2.2.2.2.2.1, h1.2.2.2.2.2.2.1, h1.2.2.2.2.2.2.2.1,
    h1.2.2.2.2.2.2.2.2.1, h1.2.2.2.2.2.2.2.2.2.1,
    h2.2.2.2.2.2.2.2.2.2.2.1 (by decide),
    h1.2.2.2.2.2.2.2.2.2.2.2 (by decide) (by decide)⟩

/-- C9: a `claimed` outcome means the address is already in the processed
set when the function returns; and a candidate that is then rejected by
the age or liquidity filter — whose lock is merely released and which is
never marked again — stays in the processed set and every future claim
attempt for it returns the skip value `true`, after any further sequence
of claim, release and mark operations. -/
theorem claimed_implies_processed (now now' : Nat) (addr v v' : String)
    (md md' : List (String × String)) (age liq minLiq : ℚ) (s : Store)
    (ops : List Op) :
    ((checkAndMarkTokenAsProcessed .ready now addr v md s).1 = .claimed →
      addr ∈
        (checkAndMarkTokenAsProcessed .ready now addr v md s).2.processedTokens) ∧
    ((processCandidate now addr v md age liq minLiq s).1 = .rejectedOld ∨
      (processCandidate now addr v md age liq minLiq s).1 =
        .rejectedLiquidity →
      addr ∈ (processCandidate now addr v md age liq minLiq s).2.processedTokens ∧
      (checkAndMarkTokenAsProcessed .ready now' addr v' md'
        (runOps (processCandidate now addr v md age liq minLiq s).2
          ops)).1.toBool = true) := by
  have hmem0 : (checkAndMarkTokenAsProcessed .ready now addr v md s).1 =
      .claimed →
      addr ∈
        (checkAndMarkTokenAsProcessed .ready now addr v md s).2.processedTokens := by
    intro hc
    rw [checkAndMark_processedTokens, if_pos hc]
    simp
  refine ⟨hmem0, fun hrej => ?_⟩
  by_cases hb :
      (checkAndMarkTokenAsProcessed .ready now addr v md s).1.toBool = true
  · exfalso
    have : (processCandidate now addr v md age liq minLiq s).1 =
        .skipped := by
      simp [processCandidate, hb]
    rcases hrej with h | h <;> rw [this] at h <;> exact absurd h (by simp)
  · have hb' : (checkAndMarkTokenAsProcessed .ready now addr v md s).1.toBool =
        false := by simpa using hb
    have hc := checkAndMark_ready_false_claimed s now addr v md hb'
    have hstore : (processCandidate now addr v md age liq minLiq s).2 =
        releaseTokenLock .ready addr
          (checkAndMarkTokenAsProcessed .ready now addr v md s).2 := by
      simp only [processCandidate, hb', Bool.false_eq_true, if_false]
      split
      · rfl
      · split <;> rfl
    have hmem1 : addr ∈
        (processCandidate now addr v md age liq minLiq s).2.processedTokens := by
      rw [hstore, releaseTokenLock_processedTokens]
      exact hmem0 hc
    refine ⟨hmem1, ?_⟩
    exact (checkAndMark_ready_member _ now' addr v' md'
      (runOps_processed_mono ops _ addr hmem1)).1

/-- C9 witness: on the empty store, candidate `"A"` aged 400 minutes (too
old) is claim-marked then rejected and released; it stays processed and a
later claim attempt after one more release returns `true`. -/
theorem claimed_implies_processed_witness :
    ((checkAndMarkTokenAsProcessed .ready 0 "A" "v" [] Store.empty).1 =
        .claimed →
      "A" ∈
        (checkAndMarkTokenAsProcessed .ready 0 "A" "v" []
          Store.empty).2.processedTokens) ∧
    ("A" ∈ (processCandidate 0 "A" "v" [] 400 5000 1000
        Store.empty).2.processedTokens ∧
      (checkAndMarkTokenAsProcessed .ready 3600 "A" "w" []
        (runOps (processCandidate 0 "A" "v" [] 400 5000 1000
          Store.empty).2 [Op.release "A"])).1.toBool = true) :=
  ⟨(claimed_implies_processed 0 3600 "A" "v" "w" [] [] 400 5000 1000
      Store.empty [Op.release "A"]).1,
   (claimed_implies_processed 0 3600 "A" "v" "w" [] [] 400 5000 1000
      Store.empty [Op.release "A"]).2 (by decide)⟩

/-- C10: `checkTokenSafety` reports `isSafe` exactly when the effective
score (`response.data.score || 0`, so an absent, null or zero field counts
as 0 and is safe) is at most 400, and on a failed or timed-out request it
returns `isSafe = false` with a null score. -/
theorem safety_check_default_and_error (n : Int) (os : Option Int) :
    ((checkTokenSafety (.response (some n))).1 = decide (n ≤ 400)) ∧
    ((checkTokenSafety (.response os)).1 = decide (os.getD 0 ≤ 400)) ∧
    (checkTokenSafety (.response none) = (true, some 0)) ∧
    (checkTokenSafety (.response (some 0)) = (true, some 0)) ∧
    (checkTokenSafety .requestFailed = (false, none)) := by
  simp [checkTokenSafety]

lemma applyOp_processedTokens (s : Store) (op : Op) :
    (applyOp s op).processedTokens =
      s.processedTokens ++ stepNewAddrs s op := by
  cases op with
  | tryClaim now addr v md =>
    show (checkAndMarkTokenAsProcessed .ready now addr v md s).2.processedTokens = _
    rw [checkAndMark_processedTokens]
    by_cases hc :
        (checkAndMarkTokenAsProcessed .ready now addr v md s).1 = .claimed
    · simp [stepNewAddrs, hc]
    · simp [stepNewAddrs, hc]
  | release addr =>
    simp [applyOp, releaseTokenLock_processedTokens, stepNewAddrs]
  | mark now addr md =>
    show (markTokenAsProcessed .ready now addr md s).2.processedTokens = _
    rw [markTokenAsProcessed_ready_processedTokens, sAdd_processedTokens]
    by_cases hm : addr ∈ s.processedTokens
    · simp [stepNewAddrs, hm]
    · simp [stepNewAddrs, hm]

lemma runOps_processedTokens (ops : List Op) : ∀ s : Store,
    (runOps s ops).processedTokens =
      s.processedTokens ++ newlyProcessed s ops := by
  induction ops with
  | nil => intro s; simp [runOps, newlyProcessed]
  | cons op rest ih =>
    intro s
    show (runOps (applyOp s op) rest).processedTokens = _
    rw [ih (applyOp s op), applyOp_processedTokens]
    simp [newlyProcessed]

/-- Invariant powering the amended count theorem: along a run from a
duplicate-free store, the newly appended addresses are duplicate-free and
are exactly the marked-or-claimed addresses not already present at the
start. -/
lemma newlyProcessed_spec (ops : List Op) : ∀ s : Store,
    s.processedTokens.Nodup →
    (newlyProcessed s ops).Nodup ∧
    (∀ a, a ∈ newlyProcessed s ops ↔
      a ∈ markedOrClaimedAddrs s ops ∧ a ∉ s.processedTokens) := by
  induction ops with
  | nil => intro s _; simp [newlyProcessed, markedOrClaimedAddrs]
  | cons op rest ih =>
    intro s hnd
    obtain ⟨ihnd, ihmem⟩ := ih (applyOp s op) (applyOp_nodup s op hnd)
    have hstep : (applyOp s op).processedTokens =
        s.processedTokens ++ stepNewAddrs s op := applyOp_processedTokens s op
    rw [newlyProcessed, markedOrClaimedAddrs]
    cases op with
    | release addr =>
      simp only [stepNewAddrs, stepTouchedAddrs, List.nil_append]
      have hsame : (applyOp s (.release addr)).processedTokens =
          s.processedTokens := by simpa [stepNewAddrs] using hstep
      refine ⟨ihnd, fun a => ?_⟩
      rw [ihmem a, hsame]
    | tryClaim now addr v md =>
      by_cases hc :
          (checkAndMarkTokenAsProcessed .ready now addr v md s).1 = .claimed
      · have hfresh : addr ∉ s.processedTokens :=
          ((checkAndMark_claimed_iff s now addr v md).mp hc).2
        have hsn : stepNewAddrs s (.tryClaim now addr v md) = [addr] := by
          simp [stepNewAddrs, hc]
        have hst : stepTouchedAddrs s (.tryClaim now addr v md) = [addr] := by
          simp [stepTouchedAddrs, hc]
        have hproc : (applyOp s (.tryClaim now addr v md)).processedTokens =
            s.processedTokens ++ [addr] := by rw [hstep, hsn]
        rw [hsn, hst, List.singleton_append, List.singleton_append]
        constructor
        · refine List.nodup_cons.mpr ⟨fun hmem => ?_, ihnd⟩
          have := ((ihmem addr).mp hmem).2
          rw [hproc] at this
          simp at this
        · intro a
          simp only [List.mem_cons, ihmem a, hproc, List.mem_append,
            List.mem_singleton]
          constructor
          · rintro (rfl | ⟨hmoc, hnotin⟩)
            · exact ⟨Or.inl rfl, hfresh⟩
            · exact ⟨Or.inr hmoc, fun hin => hnotin (Or.inl hin)⟩
          · rintro ⟨rfl | hmoc, hnotin⟩
            · exact Or.inl rfl
            · by_cases ha : a = addr
              · exact Or.inl ha
              · exact Or.inr ⟨hmoc, by tauto⟩
      · have hsn : stepNewAddrs s (.tryClaim now addr v md) = [] := by
          simp [stepNewAddrs, hc]
        have hst : stepTouchedAddrs s (.tryClaim now addr v md) = [] := by
          simp [stepTouchedAddrs, hc]
        have hsame : (applyOp s (.tryClaim now addr v md)).processedTokens =
            s.processedTokens := by rw [hstep, hsn, List.append_nil]
        rw [hsn, hst, List.nil_append, List.nil_append]
        refine ⟨ihnd, fun a => ?_⟩
        rw [ihmem a, hsame]
    | mark now addr md =>
      by_cases hm : addr ∈ s.processedTokens
      · have hsn : stepNewAddrs s (.mark now addr md) = [] := by
          simp [stepNewAddrs, hm]
        have hst : stepTouchedAddrs s (.mark now addr md) = [addr] := rfl
        have hsame : (applyOp s (.mark now addr md)).processedTokens =
            s.processedTokens := by rw [hstep, hsn, List.append_nil]
        rw [hsn, hst, List.nil_append, List.singleton_append]
        refine ⟨ihnd, fun a => ?_⟩
        rw [ihmem a, hsame]
        simp only [List.mem_cons]
        constructor
        · rintro ⟨hmoc, hnotin⟩
          exact ⟨Or.inr hmoc, hnotin⟩
        · rintro ⟨rfl | hmoc, hnotin⟩
          · exact absurd hm hnotin
          · exact ⟨hmoc, hnotin⟩
      · have hsn : stepNewAddrs s (.mark now addr md) = [addr] := by
          simp [stepNewAddrs, hm]
        have hst : stepTouchedAddrs s (.mark now addr md) = [addr] := rfl
        have hproc : (applyOp s (.mark now addr md)).processedTokens =
            s.processedTokens ++ [addr] := by rw [hstep, hsn]
        rw [hsn, hst, List.singleton_append, List.singleton_append]
        constructor
        · refine List.nodup_cons.mpr ⟨fun hmem => ?_, ihnd⟩
          have := ((ihmem addr).mp hmem).2
          rw [hproc] at this
          simp at this
        · intro a
          simp only [List.mem_cons, ihmem a, hproc, List.mem_append,
            List.mem_singleton]
          constructor
          · rintro (rfl | ⟨hmoc, hnotin⟩)
            · exact ⟨Or.inl rfl, hm⟩
            · exact ⟨Or.inr hmoc, fun hin => hnotin (Or.inl hin)⟩
          · rintro ⟨rfl | hmoc, hnotin⟩
            · exact Or.inl rfl
            · by_cases ha : a = addr
              · exact Or.inl ha
              · exact Or.inr ⟨hmoc, by tauto⟩

/-- C7 counterexample: one successful claim attempt on the empty store, and
no `markTokenAsProcessed` call at all, already makes the counter 1 — so
`Count()` does not equal the number of distinct identifiers for which
MarkProcessed was called (which is 0 here), and claims do change the
count. -/
theorem count_accuracy_counterexample :
    getProcessedTokensCount .ready
        (runOps Store.empty [Op.tryClaim 0 "A" "v" []]) = 1 ∧
    markedAddrs [Op.tryClaim 0 "A" "v" []] = [] ∧
    getProcessedTokensCount .ready
        (runOps Store.empty [Op.tryClaim 0 "A" "v" []]) ≠
      (markedAddrs [Op.tryClaim 0 "A" "v" []]).dedup.length := by decide

/-- C7 amended: starting from the empty store and running any sequence of
ready-backend claim, release and mark operations (duplicates included),
`getProcessedTokensCount` returns exactly the number of distinct
identifiers for which either `markTokenAsProcessed` was invoked or
`checkAndMarkTokenAsProcessed` returned the `claimed` outcome; releases
and skipped claim attempts contribute nothing. -/
theorem count_accuracy_amended (ops : List Op) :
    getProcessedTokensCount .ready (runOps Store.empty ops) =
      (markedOrClaimedAddrs Store.empty ops).dedup.length := by
  obtain ⟨hnd, hmem⟩ :=
    newlyProcessed_spec ops Store.empty (by simp [Store.empty])
  have hrun := runOps_processedTokens ops Store.empty
  have hcount : getProcessedTokensCount .ready (runOps Store.empty ops) =
      (newlyProcessed Store.empty ops).length := by
    show sCard _ = _
    rw [sCard, hrun]
    simp [Store.empty]
  have hset : (newlyProcessed Store.empty ops).toFinset =
      (markedOrClaimedAddrs Store.empty ops).toFinset := by
    ext a
    simp only [List.mem_toFinset]
    rw [hmem a]
    simp [Store.empty]
  rw [hcount]
  calc (newlyProcessed Store.empty ops).length
      = (newlyProcessed Store.empty ops).dedup.length := by
        rw [List.dedup_eq_self.mpr hnd]
    _ = (newlyProcessed Store.empty ops).toFinset.card :=
        (List.card_toFinset _).symm
    _ = (markedOrClaimedAddrs Store.empty ops).toFinset.card := by
        rw [hset]
    _ = (markedOrClaimedAddrs Store.empty ops).dedup.length :=
        List.card_toFinset _

section Sanity

example :
    (checkAndMarkTokenAsProcessed .ready 0 "A" "v" [] Store.empty).1 =
      .claimed := by decide

example :
    (checkAndMarkTokenAsProcessed .ready 1 "A" "w" []
      (checkAndMarkTokenAsProcessed .ready 0 "A" "v" [] Store.empty).2).1 =
      .alreadyInProgress := by decide

example :
    (checkAndMarkTokenAsProcessed .ready 601 "A" "w" []
      (checkAndMarkTokenAsProcessed .ready 0 "A" "v" [] Store.empty).2).1 =
      .alreadyProcessed := by decide

end Sanity
